import Mathlib

/-!
Shallow embedding of the GameOfLife repository (grid.h/grid.cpp, world.h/world.cpp,
zoo.h/zoo.cpp): the dense row-major cell grid with its geometric operations, the
Game-of-Life world transition, and the ascii/binary codecs, together with proofs
about the specification's claims.

Modelling conventions:
* machine integers are `Nat`/`Int`; `unsigned int` arithmetic wraps modulo 2^32
  where that matters (`uwrap`, `usub`);
* a thrown C++ exception is modelled as `none` of an `Option` result;
* `std::vector<Cell>` is a `List Cell`, indexed exactly as `Grid::get_index`
  computes row-major offsets;
* files are the lists of their bytes (`List Nat`, each < 256) or characters.
-/

set_option maxRecDepth 10000

namespace GOL

/-- Cell state, from grid.h: `enum Cell : char { DEAD = ' ', ALIVE = '#' }`. -/
inductive Cell : Type where
  | DEAD : Cell
  | ALIVE : Cell
deriving DecidableEq, Repr

/-- The Grid class of grid.h: `width`, `height`, and the cell vector.
`cells` is stored row-major: `Grid::operator()(x, y)` reads
`cells[get_index(y, x)]` with `get_index(a, b) = a * width + b`,
so cell (x, y) lives at offset `y * width + x`. -/
structure Grid : Type where
  width : Nat
  height : Nat
  cells : List Cell
deriving DecidableEq, Repr

/-- Invariant of every fully constructed Grid: the vector holds width*height cells. -/
def Grid.WF (g : Grid) : Prop := g.cells.length = g.width * g.height

/-- 2^32, the modulus of `unsigned int` arithmetic. -/
def U32 : Nat := 4294967296

/-- C++ conversion of a (possibly negative) `int` to `unsigned int`: reduce modulo 2^32. -/
def uwrap (z : Int) : Nat := (z % (U32 : Int)).toNat

/-- C++ `unsigned int` subtraction `a - b` for operands below 2^32: wraps modulo 2^32. -/
def usub (a b : Nat) : Nat := (a + U32 - b) % U32

/-- Grid::Grid(width, height): pushes one DEAD cell per (row, column) pair,
i.e. width*height DEAD cells in row-major order. -/
def Grid.make (w h : Nat) : Grid := ⟨w, h, List.replicate (w * h) Cell.DEAD⟩

/-- Grid::Grid(width, height) as invoked with `int` arguments: the parameters are
`unsigned int`, so each argument wraps modulo 2^32 at the call boundary; the body's
`width < 0 || height < 0` test then compares the *unsigned* values, so it never fires
(kept here verbatim as a dead branch). -/
def Grid.construct (w h : Int) : Grid :=
  if uwrap w < 0 ∨ uwrap h < 0 then ⟨uwrap w, uwrap h, []⟩
  else Grid.make (uwrap w) (uwrap h)

/-- Grid::get_index(a, b) = `a * this->width + b` computed in `unsigned int`:
the product and sum wrap modulo 2^32 when width*height exceeds 2^32.
Grid::operator()(x, y) reads `cells[get_index(y, x)]`, so the offset of
cell (x, y) is `(y * width + x) mod 2^32`. -/
def Grid.get_index (g : Grid) (a b : Nat) : Nat := (a * g.width + b) % U32

/-- The value of cell (x, y) under the spec's data model (section 3:
`index(x, y) = y * width + x`, exact). The operation models below address the
vector through `get_index`, whose unsigned arithmetic wraps; theorems about
grid.cpp code paths that quantify over grid sizes therefore carry a
`width * height < 2^32` bound, under which the two offsets agree. -/
def Grid.read (g : Grid) (x y : Nat) : Cell := g.cells.getD (y * g.width + x) Cell.DEAD

/-- Grid::operator()(x, y) const / Grid::get: bounds-checked read of
`cells[get_index(y, x)]`; `none` models the thrown exception when
`validCoordinates` reports the pair out of range. -/
def Grid.get? (g : Grid) (x y : Nat) : Option Cell :=
  if x < g.width ∧ y < g.height then
    some (g.cells.getD (g.get_index y x) Cell.DEAD)
  else none

/-- Grid::operator()(x, y) used as the target of an assignment (Grid::set):
bounds-checked write of `cells[get_index(y, x)]`; `none` models the thrown
exception. -/
def Grid.set? (g : Grid) (x y : Nat) (c : Cell) : Option Grid :=
  if x < g.width ∧ y < g.height then
    some ⟨g.width, g.height, g.cells.set (g.get_index y x) c⟩
  else none

/-- Grid::get_total_cells() = `this->width * this->height` as an `unsigned int`
product: wraps modulo 2^32. The binary codec's packing loops and payload size
are bounded by this wrapped value (zoo.cpp lines 304, 314, 385, 391, 393). -/
def Grid.get_total_cells (g : Grid) : Nat := (g.width * g.height) % U32

/-! ## World (world.h / world.cpp)

world.cpp of the repository contains only the documentation comments of the
World methods; no member function is implemented there.  The definitions below
are therefore modelled from the spec (sections 4.2 and part of 3), as the
documented contract of the missing code. -/

/-- World of world.h: two equally sized grids, `current` and `next`. -/
structure World : Type where
  current : Grid
  next : Grid
deriving DecidableEq, Repr

/-- Modelled from the spec: 1 when the (already wrapped or validated) neighbour
cell is alive, 0 otherwise. Non-toroidal: coordinates outside the grid count as
DEAD; toroidal: coordinates wrap modulo width/height. (World::count_neighbours
is absent from world.cpp, which holds only its doc comment.) -/
def nbAlive (g : Grid) (toroidal : Bool) (xi yi : Int) : Nat :=
  if toroidal then
    if g.read (xi % (g.width : Int)).toNat (yi % (g.height : Int)).toNat = Cell.ALIVE
    then 1 else 0
  else
    if 0 ≤ xi ∧ xi < (g.width : Int) ∧ 0 ≤ yi ∧ yi < (g.height : Int) then
      if g.read xi.toNat yi.toNat = Cell.ALIVE then 1 else 0
    else 0

/-- Modelled from the spec (section 4.2): World::count_neighbours(x, y, toroidal)
examines the 8 cells of the 3x3 block centred on (x, y), excluding the centre,
in the current grid. -/
def countNeighbours (g : Grid) (x y : Nat) (toroidal : Bool) : Nat :=
  nbAlive g toroidal ((x : Int) - 1) ((y : Int) - 1) +
  nbAlive g toroidal (x : Int) ((y : Int) - 1) +
  nbAlive g toroidal ((x : Int) + 1) ((y : Int) - 1) +
  nbAlive g toroidal ((x : Int) - 1) (y : Int) +
  nbAlive g toroidal ((x : Int) + 1) (y : Int) +
  nbAlive g toroidal ((x : Int) - 1) ((y : Int) + 1) +
  nbAlive g toroidal (x : Int) ((y : Int) + 1) +
  nbAlive g toroidal ((x : Int) + 1) ((y : Int) + 1)

/-- Modelled from the spec (section 4.2, step): the standard Game of Life rule
for one cell given its alive-neighbour count. -/
def lifeRule (c : Cell) (n : Nat) : Cell :=
  if c = Cell.ALIVE then
    if n < 2 ∨ 3 < n then Cell.DEAD else Cell.ALIVE
  else
    if n = 3 then Cell.ALIVE else Cell.DEAD

/-- Modelled from the spec (section 4.2): World::step(toroidal) computes every
cell of `next` from the pre-step `current` grid and then swaps the two buffers
by ownership transfer (the old current becomes the new next buffer). -/
def World.step (wld : World) (toroidal : Bool) : World :=
  let cur := wld.current
  let nxt : Grid :=
    ⟨cur.width, cur.height,
      (List.range (cur.width * cur.height)).map (fun idx =>
        lifeRule (cur.read (idx % cur.width) (idx / cur.width))
          (countNeighbours cur (idx % cur.width) (idx / cur.width) toroidal))⟩
  ⟨nxt, cur⟩

/-! ## Grid::merge (grid.cpp lines 637-668) -/

/-- Inner loop of Grid::merge over the columns `j` of `other`, for source row `i`:
an ALIVE source cell is written to `this(j + y0, i + x0)` (the source mixes the
two offsets into the wrong coordinates); a DEAD source cell, when `alive_only` is
false, is written to `this(j, i)` with no offset at all. Each write goes through
the bounds-checked operator(), so `none` models a thrown exception. -/
def mergeCols (other : Grid) (x0 y0 : Nat) (aliveOnly : Bool) (i : Nat) :
    Nat → Nat → Grid → Option Grid
  | _, 0, g => some g
  | j, n + 1, g => do
    let v ← other.get? j i
    let g' ←
      if v = Cell.ALIVE then g.set? (j + y0) (i + x0) Cell.ALIVE
      else if aliveOnly = false then g.set? j i Cell.DEAD
      else some g
    mergeCols other x0 y0 aliveOnly i (j + 1) n g'

/-- Outer loop of Grid::merge over the rows `i` of `other`. -/
def mergeRows (other : Grid) (x0 y0 : Nat) (aliveOnly : Bool) :
    Nat → Nat → Grid → Option Grid
  | _, 0, g => some g
  | i, n + 1, g => do
    let g' ← mergeCols other x0 y0 aliveOnly i 0 other.width g
    mergeRows other x0 y0 aliveOnly (i + 1) n g'

/-- Grid::merge(other, x0, y0, alive_only): throws if (x0, y0) is out of range;
throws if `other.height > height - x0 || other.width > width - y0` (the source
compares the *height* against the x-offset and the *width* against the y-offset,
with unsigned wrap-around subtraction); otherwise runs the row/column loops. -/
def Grid.merge (g other : Grid) (x0 y0 : Nat) (aliveOnly : Bool) : Option Grid :=
  if ¬(x0 < g.width ∧ y0 < g.height) then none
  else if other.height > usub g.height x0 ∨ other.width > usub g.width y0 then none
  else mergeRows other x0 y0 aliveOnly 0 other.height g

/-! ## Grid::crop (grid.cpp lines 565-598) -/

/-- Inner loop of Grid::crop over `j` in `[y0, y1)`: writes
`newGrid(i - x0, j - y0) = this(j, i)` — the source coordinates are read
transposed (first argument `j` ranges over the y-window). -/
def cropCols (src : Grid) (x0 y0 : Nat) (i : Nat) : Nat → Nat → Grid → Option Grid
  | _, 0, ng => some ng
  | j, n + 1, ng => do
    let v ← src.get? j i
    let ng' ← ng.set? (i - x0) (j - y0) v
    cropCols src x0 y0 i (j + 1) n ng'

/-- Outer loop of Grid::crop over `i` in `[x0, x1)`. -/
def cropRows (src : Grid) (x0 y0 y1 : Nat) : Nat → Nat → Grid → Option Grid
  | _, 0, ng => some ng
  | i, n + 1, ng => do
    let ng' ← cropCols src x0 y0 i y0 (y1 - y0) ng
    cropRows src x0 y0 y1 (i + 1) n ng'

/-- Grid::crop(x0, y0, x1, y1): throws when *both* corners are out of range
(`validCoordinates(x0,y0) && validCoordinates(x1,y1)`), throws when
`x0 > x1 || y0 > y1`, otherwise fills a `(x1-x0) x (y1-y0)` grid via the loops. -/
def Grid.crop (g : Grid) (x0 y0 x1 y1 : Nat) : Option Grid :=
  if ¬(x0 < g.width ∧ y0 < g.height) ∧ ¬(x1 < g.width ∧ y1 < g.height) then none
  else if x0 > x1 ∨ y0 > y1 then none
  else cropRows g x0 y0 y1 x0 (x1 - x0) (Grid.make (x1 - x0) (y1 - y0))

/-! ## Grid::rotate (grid.cpp lines 692-790)

The walk state is the pair of `int` cursors (newX, newY); every write is
`newGrid(newY, newX) = this(j, i)`, i.e. x-coordinate newY, y-coordinate newX. -/

/-- An `std::ifstream` in text mode: the file's characters, the read position,
and the eof/fail flags. -/
structure IStr : Type where
  data : List Char
  pos : Nat
  eofbit : Bool
  failbit : Bool
deriving DecidableEq, Repr

/-- istream::get(): on a good stream returns the next character and advances;
reading past the end returns no character and sets eofbit and failbit; on an
already failed stream it fails immediately. -/
def IStr.getc (s : IStr) : Option Char × IStr :=
  if s.failbit then (none, s)
  else if h : s.pos < s.data.length then (some (s.data.get ⟨s.pos, h⟩), { s with pos := s.pos + 1 })
  else (none, { s with eofbit := true, failbit := true })

/-- istream::eof(). -/
def IStr.eof (s : IStr) : Bool := s.eofbit

/-- Whitespace skipped by `operator>>`. -/
def isWS (c : Char) : Bool := c = ' ' ∨ c = '\n' ∨ c = '\t' ∨ c = '\r'

/-- Skip leading whitespace (fuel-bounded by the stream length). -/
def skipWS : Nat → IStr → IStr
  | 0, s => s
  | fuel + 1, s =>
    if h : s.pos < s.data.length then
      if isWS (s.data.get ⟨s.pos, h⟩) then skipWS fuel { s with pos := s.pos + 1 } else s
    else s

/-- Greedily read decimal digits, accumulating the value; returns the value,
the stream, and whether any digit was consumed. -/
def readDigits : Nat → IStr → Nat → Bool → Nat × IStr × Bool
  | 0, s, acc, seen => (acc, s, seen)
  | fuel + 1, s, acc, seen =>
    if h : s.pos < s.data.length then
      let ch := s.data.get ⟨s.pos, h⟩
      if ch.isDigit then
        readDigits fuel { s with pos := s.pos + 1 } (10 * acc + (ch.toNat - 48)) true
      else (acc, s, seen)
    else (acc, s, seen)

/-- `in >> width` for an `unsigned int`: skip whitespace, read digits; with no
digits (or an exhausted stream) the value is 0 and failbit is set; hitting the
end of the stream while (or right before) reading sets eofbit. -/
def IStr.extractUInt (s : IStr) : Nat × IStr :=
  if s.failbit then (0, s)
  else
    let s1 := skipWS s.data.length s
    let r := readDigits s1.data.length s1 0 false
    let s2 := r.2.1
    let atEnd : Bool := decide (s2.pos = s2.data.length)
    if r.2.2 then
      (r.1 % U32, { s2 with eofbit := s2.eofbit || atEnd })
    else
      (0, { s2 with failbit := true, eofbit := s2.eofbit || atEnd })

/-- Inner loop of Zoo::load_ascii over the columns of row `i`
(`for j < width && !in.eof()`): reads one character per cell; `'#'` writes
ALIVE, `' '` writes DEAD, anything else throws (modelled as `none`).
When `in.get(a)` itself fails, the C++ leaves the uninitialized local `a`
untouched and still inspects it (an unspecified value); the model uses the
NUL character, which like any non-cell character takes the throwing branch. -/
def loadCols (i : Nat) : Nat → Nat → Grid → IStr → Option (Grid × IStr)
  | _, 0, g, s => some (g, s)
  | j, n + 1, g, s =>
    if s.eof then some (g, s)
    else
      let r := s.getc
      let a := r.1.getD (Char.ofNat 0)
      if a = '#' then do
        let g' ← g.set? j i Cell.ALIVE
        loadCols i (j + 1) n g' r.2
      else if a = ' ' then do
        let g' ← g.set? j i Cell.DEAD
        loadCols i (j + 1) n g' r.2
      else none

/-- Outer loop of Zoo::load_ascii over the rows (`for i < height && !in.eof()`):
first consumes the line terminator with `in.get()`, then runs the column loop. -/
def loadRows (w : Nat) : Nat → Nat → Grid → IStr → Option (Grid × IStr)
  | _, 0, g, s => some (g, s)
  | i, n + 1, g, s =>
    if s.eof then some (g, s)
    else
      let r := s.getc
      match loadCols i 0 w g r.2 with
      | none => none
      | some (g', s') => loadRows w (i + 1) n g' s'

/-- Zoo::load_ascii on an already opened file (the claim quantifies over openable
files): `in >> width >> height`, construct the grid, then the row loop; the grid
is returned whenever no cell character was rejected. -/
def load_ascii (data : List Char) : Option Grid :=
  let s0 : IStr := ⟨data, 0, false, false⟩
  let rw := s0.extractUInt
  let rh := rw.2.extractUInt
  let g0 := Grid.make rw.1 rh.1
  match loadRows rw.1 0 rh.1 g0 rh.2 with
  | none => none
  | some (g, _) => some g

/-! ## Zoo binary codec (zoo.cpp lines 240-254, 278-345, 375-407) -/

/-- The cell the packing loops touch for flat index `i`:
`grid(i % width, i / width)` reads `cells[get_index(i / width, i % width)]`
(the offset wraps modulo 2^32 through get_index's unsigned arithmetic). -/
def cellAtIndex (g : Grid) (i : Nat) : Cell :=
  g.cells.getD (g.get_index (i / g.width) (i % g.width)) Cell.DEAD

/-- 1 when flat index `i` is inside the grid and that cell is ALIVE, else 0;
this is the bit save_binary emits for `i` (the inner loop only runs while
`i < get_total_cells()`, and the byte's remaining bits stay 0). -/
def aliveBit (g : Grid) (i : Nat) : Nat :=
  if i < g.get_total_cells ∧ cellAtIndex g i = Cell.ALIVE then 1 else 0

/-- Value of the bits for flat indices `i, i+1, ..., i+n-1`, least significant
first. save_binary sets `byte[7 - j] = '1'` for alive cell `8k + j` and
convert_byte folds the string most-significant-character first, so cell `8k + j`
lands in bit `j` of byte `k`: the byte's value is exactly this sum. -/
def chunkVal (g : Grid) : Nat → Nat → Nat
  | _, 0 => 0
  | i, n + 1 => aliveBit g i + 2 * chunkVal g (i + 1) n

/-- Payload byte `k` written by save_binary. -/
def byteVal (g : Grid) (k : Nat) : Nat := chunkVal g (8 * k) 8

/-- `ceil((double)grid.get_total_cells() / 8)`: number of payload bytes,
computed from the wrapped unsigned cell count (exact in double below 2^53). -/
def numBytes (g : Grid) : Nat := (g.get_total_cells + 7) / 8

/-- `out.write((char*)&v, 4)` for an `unsigned int` on the (little-endian)
target: the four bytes, least significant first. -/
def le32 (n : Nat) : List Nat :=
  [n % 256, n / 256 % 256, n / 65536 % 256, n / 16777216 % 256]

/-- Zoo::save_binary as the byte list it writes: the width field, then the
*height* field — which the source fills from `grid.get_width()` — then the
packed payload bytes. -/
def save_binary (g : Grid) : List Nat :=
  le32 g.width ++ le32 g.width ++ (List.range (numBytes g)).map (byteVal g)

/-- `std::bitset<8>(byte).to_string()`: the eight bits, most significant first. -/
def bitsOfByte (b : Nat) : List Bool :=
  [b.testBit 7, b.testBit 6, b.testBit 5, b.testBit 4,
   b.testBit 3, b.testBit 2, b.testBit 1, b.testBit 0]

/-- The `bits` string load_binary accumulates with `while (in.get(c))`:
each file byte appended as its 8-character bitset string. -/
def bytesBits : List Nat → List Bool
  | [] => []
  | b :: t => bitsOfByte b ++ bytesBits t

/-- One inner pass of convert_to_int: `for k < 8: integer = integer << 1 + bit`. -/
def bitsFold (acc : Nat) (l : List Bool) : Nat :=
  l.foldl (fun a b => 2 * a + (if b then 1 else 0)) acc

/-- convert_to_int(data): processes `data.substr(24 - i*8, 8)` for i = 0..3,
i.e. the fourth 8-bit group first, accumulating bit by bit. -/
def convertToInt (data : List Bool) : Nat :=
  bitsFold (bitsFold (bitsFold (bitsFold 0 ((data.drop 24).take 8))
    ((data.drop 16).take 8)) ((data.drop 8).take 8)) (data.take 8)

/-- `toAdd(cellIndex % width, cellIndex / width) = Cell::ALIVE` through
operator(): vector offset `get_index(ci / w, ci % w)`, i.e.
`((ci / w) * toAdd.width + ci % w) mod 2^32`. -/
def setAliveIdx (g : Grid) (w ci : Nat) : Grid :=
  ⟨g.width, g.height, g.cells.set (g.get_index (ci / w) (ci % w)) Cell.ALIVE⟩

/-- Inner loop of load_binary over one byte string
(`for j < 8 && cellIndex < total`): bit `byte[7 - j]` decides cell `cellIndex`. -/
def loadByteGo (bits8 : List Bool) (w total : Nat) : Nat → Nat → Grid → Nat → Grid × Nat
  | 0, _, g, ci => (g, ci)
  | rem + 1, j, g, ci =>
    if ci < total then
      loadByteGo bits8 w total rem (j + 1)
        (if bits8.getD (7 - j) false then setAliveIdx g w ci else g) (ci + 1)
    else (g, ci)

/-- Outer loop of load_binary over the payload bytes
(`for i, cellIndex; cellIndex < total; i++`): errors when byte `i` would end
past the bit string. The C++ loop terminates because `cellIndex` strictly
increases; `total + 1` iterations always suffice, so the fuel below is never
exhausted at the call site. -/
def loadLoop (body : List Bool) (w total : Nat) : Nat → Grid → Nat → Nat → Option Grid
  | 0, _, _, _ => none
  | fuel + 1, g, i, ci =>
    if ci < total then
      if (i + 1) * 8 > body.length then none
      else
        let p := loadByteGo ((body.drop (8 * i)).take 8) w total 8 0 g ci
        loadLoop body w total fuel p.1 (i + 1) p.2
    else some g

/-- Zoo::load_binary on the byte list of an opened file: expand every byte to
its bitset string, decode width and height from the first 64 bits with
convert_to_int (`substr` throws on a shorter string), construct the grid, drop
the 64 header bits and run the payload loop. -/
def load_binary (bytes : List Nat) : Option Grid :=
  let bits := bytesBits bytes
  if bits.length < 64 then none
  else
    let w := convertToInt (bits.take 32)
    let h := convertToInt ((bits.drop 32).take 32)
    let body := bits.drop 64
    let g0 := Grid.make w h
    loadLoop body w g0.get_total_cells (g0.get_total_cells + 1) g0 0 0


/-! ## Basic index and access lemmas -/

theorem index_mod (w x y : Nat) (hx : x < w) : (y * w + x) % w = x := by
  rw [Nat.add_comm, Nat.add_mul_mod_self_right, Nat.mod_eq_of_lt hx]

theorem index_div (w x y : Nat) (hx : x < w) : (y * w + x) / w = y := by
  rw [Nat.add_comm, Nat.add_mul_div_right _ _ (Nat.lt_of_le_of_lt (Nat.zero_le x) hx)]
  rw [Nat.div_eq_of_lt hx]
  omega

theorem index_lt (w h x y : Nat) (hx : x < w) (hy : y < h) : y * w + x < w * h := by
  have h1 : y * w + x < (y + 1) * w := by
    rw [Nat.succ_mul]
    omega
  have h2 : (y + 1) * w ≤ h * w := Nat.mul_le_mul_right w hy
  rw [Nat.mul_comm w h]
  omega

theorem map_range_getD {α : Type} (f : Nat → α) (n i : Nat) (d : α) (h : i < n) :
    ((List.range n).map f).getD i d = f i := by
  simp [List.getD_eq_getElem?_getD, List.getElem?_map, List.getElem?_range h]

theorem read_make (w h x y : Nat) : (Grid.make w h).read x y = Cell.DEAD := by
  unfold Grid.make Grid.read
  rcases Nat.lt_or_ge (y * w + x) (w * h) with hlt | hge
  · simp [List.getD_eq_getElem?_getD, List.getElem?_replicate, hlt]
  · have hlen : (List.replicate (w * h) Cell.DEAD).length ≤ y * w + x := by
      rw [List.length_replicate]
      exact hge
    simp [List.getD_eq_getElem?_getD, List.getElem?_eq_none hlen]

/-! ## C1: the World::step transition rule -/

/-- C1: for every World and every in-range cell (x, y), World::step(toroidal)
computes the next-generation value of that cell from the pre-step current grid
by the standard Game of Life rule: an ALIVE cell with fewer than 2 or more than
3 alive neighbours becomes DEAD, an ALIVE cell with 2 or 3 alive neighbours
stays ALIVE, a DEAD cell with exactly 3 alive neighbours becomes ALIVE, and any
other DEAD cell stays DEAD. -/
theorem step_follows_life_rule_c1 (wld : World) (t : Bool) (x y : Nat)
    (hx : x < wld.current.width) (hy : y < wld.current.height) :
    ((wld.current.read x y = Cell.ALIVE ∧
        (countNeighbours wld.current x y t < 2 ∨ 3 < countNeighbours wld.current x y t)) →
      (wld.step t).current.read x y = Cell.DEAD) ∧
    ((wld.current.read x y = Cell.ALIVE ∧
        (countNeighbours wld.current x y t = 2 ∨ countNeighbours wld.current x y t = 3)) →
      (wld.step t).current.read x y = Cell.ALIVE) ∧
    ((wld.current.read x y = Cell.DEAD ∧ countNeighbours wld.current x y t = 3) →
      (wld.step t).current.read x y = Cell.ALIVE) ∧
    ((wld.current.read x y = Cell.DEAD ∧ countNeighbours wld.current x y t ≠ 3) →
      (wld.step t).current.read x y = Cell.DEAD) := by
  have key : (wld.step t).current.read x y =
      lifeRule (wld.current.read x y) (countNeighbours wld.current x y t) := by
    show (Grid.read _ x y) = _
    unfold World.step Grid.read
    simp only
    rw [map_range_getD _ _ _ _ (index_lt _ _ _ _ hx hy)]
    rw [index_mod _ _ _ hx, index_div _ _ _ hx]
  rw [key]
  unfold lifeRule
  rcases hc : wld.current.read x y with _ | _ <;>
    rcases Nat.lt_or_ge (countNeighbours wld.current x y t) 2 with h2 | h2 <;>
      simp_all <;> omega

/-- Witness for C1 at a concrete world: the single DEAD cell of a 1x1 world has
0 alive neighbours and stays DEAD after one step. -/
theorem step_follows_life_rule_c1_witness :
    (World.step ⟨⟨1, 1, [Cell.DEAD]⟩, ⟨1, 1, [Cell.DEAD]⟩⟩ false).current.read 0 0 =
      Cell.DEAD :=
  (step_follows_life_rule_c1 ⟨⟨1, 1, [Cell.DEAD]⟩, ⟨1, 1, [Cell.DEAD]⟩⟩ false 0 0
    (by decide) (by decide)).2.2.2 ⟨by decide, by decide⟩

/-! ## C8: negative construction sizes wrap to huge unsigned values -/

/-- C8 failing input: `Grid(-1, 1)`. The `int` argument -1 wraps to 4294967295 at
the unsigned parameter, the dead negativity check does not fire, and the
constructor builds a grid of width 4294967295 - neither a failure nor a 0x0
grid, and far above the requested non-negative height 1. -/
theorem construct_neg_wraps_c8 :
    (Grid.construct (-1) 1).width = 4294967295 ∧
    (Grid.construct (-1) 1).height = 1 ∧
    1 < (Grid.construct (-1) 1).width := by
  refine ⟨rfl, rfl, ?_⟩
  show 1 < 4294967295
  omega

/-! ## C3: Grid::crop reads the window transposed -/

/-- C3 failing input: the 2x2 grid with only cell (0, 1) ALIVE, cropped with the
valid window (x0, y0, x1, y1) = (0, 0, 1, 2). The claim requires result cell
(0, 1) to equal source cell (0, 1) = ALIVE; the code instead stores source cell
(1, 0) = DEAD there (its loops read `this(j, i)` with `j` ranging over the
y-window). -/
theorem crop_transposed_c3 :
    Grid.crop ⟨2, 2, [Cell.DEAD, Cell.DEAD, Cell.ALIVE, Cell.DEAD]⟩ 0 0 1 2 =
      some ⟨1, 2, [Cell.DEAD, Cell.DEAD]⟩ ∧
    (⟨2, 2, [Cell.DEAD, Cell.DEAD, Cell.ALIVE, Cell.DEAD]⟩ : Grid).read 0 1 =
      Cell.ALIVE := by
  constructor
  · rfl
  · rfl

/-! ## C4: Grid::merge with alive_only=false misplaces its writes -/

/-- C4 failing input: destination 2x2 all ALIVE, other 1x1 DEAD, origin (1, 1),
alive_only = false. The claim requires destination cell (1, 1) to become DEAD
and every cell outside the covered window (in particular (0, 0)) to be
unchanged; the code instead leaves (1, 1) ALIVE and overwrites (0, 0) - its
DEAD branch writes `this(j, i)` without any offset. -/
theorem merge_misplaced_c4 :
    Grid.merge ⟨2, 2, [Cell.ALIVE, Cell.ALIVE, Cell.ALIVE, Cell.ALIVE]⟩
        ⟨1, 1, [Cell.DEAD]⟩ 1 1 false =
      some ⟨2, 2, [Cell.DEAD, Cell.ALIVE, Cell.ALIVE, Cell.ALIVE]⟩ := by
  rfl

/-! ## C7: Zoo::load_ascii accepts a non-positive width -/

/-- C7 failing input: the file "0 5\n". Its width parses as 0, which is not a
positive integer, so the claim requires load_ascii to fail; the code never
checks the parsed values and returns a 0x5 grid. -/
theorem load_ascii_zero_width_c7 :
    load_ascii ['0', ' ', '5', '\n'] = some (Grid.make 0 5) := by
  rfl

/-! ## C2: the binary round trip loses the height -/

/-- C2 failing input: the 2x1 grid [ALIVE, DEAD]. save_binary fills the height
field from `grid.get_width()`, so the saved file declares a 2x2 grid and
load_binary returns one: the loaded height is 2, not 1, and the round trip of
the claim fails. -/
theorem binary_roundtrip_fails_c2 :
    save_binary ⟨2, 1, [Cell.ALIVE, Cell.DEAD]⟩ = [2, 0, 0, 0, 2, 0, 0, 0, 1] ∧
    load_binary (save_binary ⟨2, 1, [Cell.ALIVE, Cell.DEAD]⟩) =
      some ⟨2, 2, [Cell.ALIVE, Cell.DEAD, Cell.DEAD, Cell.DEAD]⟩ := by
  constructor
  · rfl
  · rfl

/-! ## C9: an alive_only merge never kills an ALIVE destination cell -/

theorem getD_set_alive (l : List Cell) (i j : Nat)
    (h : l.getD j Cell.DEAD = Cell.ALIVE) :
    (l.set i Cell.ALIVE).getD j Cell.DEAD = Cell.ALIVE := by
  rcases eq_or_ne i j with rfl | hne
  · rcases Nat.lt_or_ge i l.length with hlt | hge
    · simp [List.getD_eq_getElem?_getD, List.getElem?_set_self, hlt]
    · rw [List.set_eq_of_length_le hge]
      exact h
  · rw [List.getD_eq_getElem?_getD, List.getElem?_set_ne hne,
      ← List.getD_eq_getElem?_getD]
    exact h

theorem set?_alive_mono (g g' : Grid) (a b : Nat)
    (h : g.set? a b Cell.ALIVE = some g') (x y : Nat)
    (ha : g.read x y = Cell.ALIVE) : g'.read x y = Cell.ALIVE := by
  unfold Grid.set? at h
  split at h
  · cases h
    exact getD_set_alive _ _ _ ha
  · cases h

theorem mergeCols_alive_mono (other : Grid) (x0 y0 i : Nat) :
    ∀ n j g g', mergeCols other x0 y0 true i j n g = some g' →
      ∀ x y, g.read x y = Cell.ALIVE → g'.read x y = Cell.ALIVE := by
  intro n
  induction n with
  | zero =>
    intro j g g' h x y ha
    cases h
    exact ha
  | succ n ih =>
    intro j g g' h x y ha
    unfold mergeCols at h
    rcases hv : other.get? j i with _ | v
    · rw [hv] at h
      cases h
    · rw [hv] at h
      simp only [Option.bind_eq_bind, Option.some_bind] at h
      by_cases hav : v = Cell.ALIVE
      · rw [if_pos hav] at h
        rcases hset : g.set? (j + y0) (i + x0) Cell.ALIVE with _ | g1
        · rw [hset] at h
          cases h
        · rw [hset] at h
          simp only [Option.some_bind] at h
          exact ih (j + 1) g1 g' h x y (set?_alive_mono g g1 _ _ hset x y ha)
      · rw [if_neg hav] at h
        simp only [Bool.true_eq_false, if_false, Option.some_bind] at h
        exact ih (j + 1) g g' h x y ha

theorem mergeRows_alive_mono (other : Grid) (x0 y0 : Nat) :
    ∀ n i g g', mergeRows other x0 y0 true i n g = some g' →
      ∀ x y, g.read x y = Cell.ALIVE → g'.read x y = Cell.ALIVE := by
  intro n
  induction n with
  | zero =>
    intro i g g' h x y ha
    cases h
    exact ha
  | succ n ih =>
    intro i g g' h x y ha
    unfold mergeRows at h
    rcases hc : mergeCols other x0 y0 true i 0 other.width g with _ | g1
    · rw [hc] at h
      cases h
    · rw [hc] at h
      simp only [Option.bind_eq_bind, Option.some_bind] at h
      exact ih (i + 1) g1 g' h x y
        (mergeCols_alive_mono other x0 y0 i other.width 0 g g1 hc x y ha)

/-- C9: whenever Grid::merge(other, x, y, true) returns normally, every
destination cell that was ALIVE before the call is still ALIVE afterwards:
the alive_only loop body only ever writes the value ALIVE. -/
theorem merge_alive_only_monotone_c9 (g other : Grid) (x0 y0 : Nat) (g' : Grid)
    (h : g.merge other x0 y0 true = some g') (x y : Nat)
    (ha : g.read x y = Cell.ALIVE) : g'.read x y = Cell.ALIVE := by
  unfold Grid.merge at h
  split at h
  · cases h
  · split at h
    · cases h
    · exact mergeRows_alive_mono other x0 y0 other.height 0 g g' h x y ha

/-- Witness for C9: a successful 1x1 alive_only merge into a 2x2 grid whose
cell (0, 0) is ALIVE keeps that cell ALIVE. -/
theorem merge_alive_only_monotone_c9_witness :
    Grid.merge ⟨2, 2, [Cell.ALIVE, Cell.DEAD, Cell.DEAD, Cell.DEAD]⟩
        ⟨1, 1, [Cell.ALIVE]⟩ 0 0 true =
      some ⟨2, 2, [Cell.ALIVE, Cell.DEAD, Cell.DEAD, Cell.DEAD]⟩ ∧
    (⟨2, 2, [Cell.ALIVE, Cell.DEAD, Cell.DEAD, Cell.DEAD]⟩ : Grid).read 0 0 =
      Cell.ALIVE :=
  ⟨by rfl,
    merge_alive_only_monotone_c9 ⟨2, 2, [Cell.ALIVE, Cell.DEAD, Cell.DEAD, Cell.DEAD]⟩
      ⟨1, 1, [Cell.ALIVE]⟩ 0 0
      ⟨2, 2, [Cell.ALIVE, Cell.DEAD, Cell.DEAD, Cell.DEAD]⟩ (by rfl) 0 0 (by rfl)⟩

/-! ## Binary codec: general lemmas -/

theorem bytesBits_append (l1 l2 : List Nat) :
    bytesBits (l1 ++ l2) = bytesBits l1 ++ bytesBits l2 := by
  induction l1 with
  | nil => rfl
  | cons b t ih =>
    show bitsOfByte b ++ bytesBits (t ++ l2) = (bitsOfByte b ++ bytesBits t) ++ bytesBits l2
    rw [ih, List.append_assoc]

theorem bytesBits_length (l : List Nat) : (bytesBits l).length = 8 * l.length := by
  induction l with
  | nil => rfl
  | cons b t ih =>
    show (bitsOfByte b ++ bytesBits t).length = 8 * (t.length + 1)
    rw [List.length_append, ih]
    show 8 + 8 * t.length = 8 * (t.length + 1)
    omega

theorem bitsFold_affine (l : List Bool) : ∀ acc : Nat,
    bitsFold acc l = acc * 2 ^ l.length + bitsFold 0 l := by
  induction l with
  | nil =>
    intro acc
    show acc = acc * 1 + 0
    omega
  | cons b t ih =>
    intro acc
    show bitsFold (2 * acc + (if b then 1 else 0)) t = acc * 2 ^ (t.length + 1) +
      bitsFold (2 * 0 + (if b then 1 else 0)) t
    rw [ih (2 * acc + (if b then 1 else 0)), ih (2 * 0 + (if b then 1 else 0))]
    rcases b with _ | _ <;> simp <;> ring

theorem bitsFold_byte_fin : ∀ b : Fin 256, bitsFold 0 (bitsOfByte b.val) = b.val := by
  decide

theorem bitsFold_byte (b : Nat) (hb : b < 256) : bitsFold 0 (bitsOfByte b) = b :=
  bitsFold_byte_fin ⟨b, hb⟩

theorem convertToInt_four (a b c d : Nat) (ha : a < 256) (hb : b < 256)
    (hc : c < 256) (hd : d < 256) :
    convertToInt (bitsOfByte a ++ (bitsOfByte b ++ (bitsOfByte c ++ bitsOfByte d))) =
      ((d * 256 + c) * 256 + b) * 256 + a := by
  have h24 : ((bitsOfByte a ++ (bitsOfByte b ++ (bitsOfByte c ++ bitsOfByte d))).drop 24).take 8 =
      bitsOfByte d := rfl
  have h16 : ((bitsOfByte a ++ (bitsOfByte b ++ (bitsOfByte c ++ bitsOfByte d))).drop 16).take 8 =
      bitsOfByte c := rfl
  have h8 : ((bitsOfByte a ++ (bitsOfByte b ++ (bitsOfByte c ++ bitsOfByte d))).drop 8).take 8 =
      bitsOfByte b := rfl
  have h0 : (bitsOfByte a ++ (bitsOfByte b ++ (bitsOfByte c ++ bitsOfByte d))).take 8 =
      bitsOfByte a := rfl
  unfold convertToInt
  rw [h24, h16, h8, h0]
  rw [bitsFold_byte d hd]
  rw [bitsFold_affine (bitsOfByte c) d, bitsFold_byte c hc]
  rw [bitsFold_affine (bitsOfByte b) _, bitsFold_byte b hb]
  rw [bitsFold_affine (bitsOfByte a) _, bitsFold_byte a ha]
  show (((d * 2 ^ 8 + c) * 2 ^ 8 + b) * 2 ^ 8 + a) = ((d * 256 + c) * 256 + b) * 256 + a
  norm_num

theorem convertToInt_le32 (n : Nat) (h : n < U32) :
    convertToInt (bytesBits (le32 n)) = n := by
  have hb : bytesBits (le32 n) =
      bitsOfByte (n % 256) ++ (bitsOfByte (n / 256 % 256) ++
        (bitsOfByte (n / 65536 % 256) ++ bitsOfByte (n / 16777216 % 256))) := by
    show bitsOfByte (n % 256) ++ (bitsOfByte (n / 256 % 256) ++
        (bitsOfByte (n / 65536 % 256) ++ (bitsOfByte (n / 16777216 % 256) ++ []))) = _
    rw [List.append_nil]
  rw [hb, convertToInt_four _ _ _ _ (Nat.mod_lt _ (by omega)) (Nat.mod_lt _ (by omega))
    (Nat.mod_lt _ (by omega)) (Nat.mod_lt _ (by omega))]
  have hU : n < 4294967296 := h
  omega

theorem chunkVal_lt (g : Grid) : ∀ n i, chunkVal g i n < 2 ^ n := by
  intro n
  induction n with
  | zero =>
    intro i
    show 0 < 1
    omega
  | succ n ih =>
    intro i
    show aliveBit g i + 2 * chunkVal g (i + 1) n < 2 ^ (n + 1)
    have h1 := ih (i + 1)
    have h2 : aliveBit g i ≤ 1 := by
      unfold aliveBit
      split <;> omega
    rw [Nat.pow_succ]
    omega

theorem chunkVal_testBit (g : Grid) : ∀ n j i, j < n →
    ((chunkVal g i n).testBit j = true ↔ aliveBit g (i + j) = 1) := by
  intro n
  induction n with
  | zero =>
    intro j i hj
    omega
  | succ n ih =>
    intro j i hj
    show ((aliveBit g i + 2 * chunkVal g (i + 1) n).testBit j = true ↔ _)
    have hab : aliveBit g i ≤ 1 := by
      unfold aliveBit
      split <;> omega
    rcases j with _ | j
    · rw [Nat.testBit_zero]
      constructor
      · intro hbit
        simp only [decide_eq_true_eq] at hbit
        show aliveBit g i = 1
        omega
      · intro hone
        have hone' : aliveBit g i = 1 := hone
        simp only [decide_eq_true_eq]
        omega
    · rw [Nat.testBit_succ]
      have hdiv : (aliveBit g i + 2 * chunkVal g (i + 1) n) / 2 = chunkVal g (i + 1) n := by
        omega
      rw [hdiv]
      rw [ih j (i + 1) (by omega)]
      rw [show i + 1 + j = i + (j + 1) from by omega]

theorem bitsOfByte_getD (b : Nat) (j : Nat) (hj : j < 8) :
    (bitsOfByte b).getD (7 - j) false = b.testBit j := by
  interval_cases j <;> rfl

theorem get_total_cells_small (g : Grid) (hsz : g.width * g.height < U32) :
    g.get_total_cells = g.width * g.height := Nat.mod_eq_of_lt hsz

theorem cellAtIndex_eq (g : Grid) (i : Nat) (hi : i < g.width * g.height)
    (hsz : g.width * g.height < U32) :
    cellAtIndex g i = g.cells.getD i Cell.DEAD := by
  unfold cellAtIndex Grid.get_index
  rw [Nat.div_add_mod' i g.width]
  rw [Nat.mod_eq_of_lt (Nat.lt_trans hi hsz)]

theorem aliveBit_eq (g : Grid) (i : Nat) (hi : i < g.width * g.height)
    (hsz : g.width * g.height < U32) :
    aliveBit g i = if g.cells.getD i Cell.DEAD = Cell.ALIVE then 1 else 0 := by
  unfold aliveBit
  rw [cellAtIndex_eq g i hi hsz, get_total_cells_small g hsz]
  simp [hi]

theorem byteVal_testBit (g : Grid) (k j : Nat) (hj : j < 8) :
    ((byteVal g k).testBit j = true ↔ aliveBit g (8 * k + j) = 1) :=
  chunkVal_testBit g 8 j (8 * k) hj

theorem byteVal_lt (g : Grid) (k : Nat) : byteVal g k < 256 :=
  chunkVal_lt g 8 (8 * k)

theorem take_succ_getD {α : Type} (l : List α) (n : Nat) (d : α) (h : n < l.length) :
    l.take (n + 1) = l.take n ++ [l.getD n d] := by
  rw [List.take_succ]
  simp [List.getElem?_eq_getElem h, List.getD_eq_getElem?_getD]

theorem take_replicate_set_alive (l : List Cell) (ci t : Nat)
    (hci : ci < t) (hlen : t = l.length) (hcell : l.getD ci Cell.DEAD = Cell.ALIVE) :
    (l.take ci ++ List.replicate (t - ci) Cell.DEAD).set ci Cell.ALIVE =
      l.take (ci + 1) ++ List.replicate (t - (ci + 1)) Cell.DEAD := by
  have hlt : (l.take ci).length = ci := by
    rw [List.length_take]
    omega
  rw [List.set_append, hlt, if_neg (by omega), Nat.sub_self]
  have hrep : List.replicate (t - ci) Cell.DEAD =
      Cell.DEAD :: List.replicate (t - ci - 1) Cell.DEAD := by
    rw [← List.replicate_succ]
    congr 1
    omega
  rw [hrep]
  show l.take ci ++ Cell.ALIVE :: List.replicate (t - ci - 1) Cell.DEAD = _
  rw [take_succ_getD l ci Cell.DEAD (by omega), hcell]
  rw [show t - (ci + 1) = t - ci - 1 from by omega]
  simp

theorem take_replicate_step_dead (l : List Cell) (ci t : Nat)
    (hci : ci < t) (hlen : t = l.length) (hcell : l.getD ci Cell.DEAD = Cell.DEAD) :
    l.take ci ++ List.replicate (t - ci) Cell.DEAD =
      l.take (ci + 1) ++ List.replicate (t - (ci + 1)) Cell.DEAD := by
  have hrep : List.replicate (t - ci) Cell.DEAD =
      Cell.DEAD :: List.replicate (t - ci - 1) Cell.DEAD := by
    rw [← List.replicate_succ]
    congr 1
    omega
  rw [hrep, take_succ_getD l ci Cell.DEAD (by omega), hcell]
  rw [show t - (ci + 1) = t - ci - 1 from by omega]
  simp

theorem loadByteGo_invariant (src : Grid) (hwf : src.WF)
    (hsz : src.width * src.height < U32) :
    ∀ rem j i ci g,
      ci = 8 * i + j → j + rem = 8 → ci ≤ src.width * src.height →
      g.width = src.width → g.height = src.height →
      g.cells = src.cells.take ci ++
        List.replicate (src.width * src.height - ci) Cell.DEAD →
      (loadByteGo (bitsOfByte (byteVal src i)) src.width (src.width * src.height)
          rem j g ci).2 = ci + min rem (src.width * src.height - ci) ∧
      (loadByteGo (bitsOfByte (byteVal src i)) src.width (src.width * src.height)
          rem j g ci).1.width = src.width ∧
      (loadByteGo (bitsOfByte (byteVal src i)) src.width (src.width * src.height)
          rem j g ci).1.height = src.height ∧
      (loadByteGo (bitsOfByte (byteVal src i)) src.width (src.width * src.height)
          rem j g ci).1.cells =
        src.cells.take (ci + min rem (src.width * src.height - ci)) ++
          List.replicate (src.width * src.height -
            (ci + min rem (src.width * src.height - ci))) Cell.DEAD := by
  intro rem
  induction rem with
  | zero =>
    intro j i ci g hci hj hle hw hh hcells
    simp only [loadByteGo, Nat.zero_min, Nat.min_zero]
    refine ⟨by omega, hw, hh, ?_⟩
    rw [Nat.add_zero]
    exact hcells
  | succ rem ih =>
    intro j i ci g hci hj hle hw hh hcells
    by_cases hlt : ci < src.width * src.height
    · have hstep : loadByteGo (bitsOfByte (byteVal src i)) src.width
          (src.width * src.height) (rem + 1) j g ci =
          loadByteGo (bitsOfByte (byteVal src i)) src.width (src.width * src.height)
            rem (j + 1)
            (if (bitsOfByte (byteVal src i)).getD (7 - j) false then
              setAliveIdx g src.width ci else g) (ci + 1) := by
        simp only [loadByteGo, if_pos hlt]
      have hjlt : j < 8 := by omega
      have hbitle : (bitsOfByte (byteVal src i)).getD (7 - j) false =
          (byteVal src i).testBit j := bitsOfByte_getD _ j hjlt
      have halive := aliveBit_eq src ci hlt hsz
      have hread := byteVal_testBit src i j hjlt
      rw [show 8 * i + j = ci from hci.symm] at hread
      -- the grid passed to the recursive call and the new invariant
      by_cases hcell : src.cells.getD ci Cell.DEAD = Cell.ALIVE
      · have hbit : (byteVal src i).testBit j = true := by
          rw [hread, halive, if_pos hcell]
        have hg' : (if (bitsOfByte (byteVal src i)).getD (7 - j) false then
            setAliveIdx g src.width ci else g) = setAliveIdx g src.width ci := by
          rw [hbitle, hbit]
          simp
        have hlen : src.width * src.height = src.cells.length := hwf.symm
        have hidx : g.get_index (ci / src.width) (ci % src.width) = ci := by
          unfold Grid.get_index
          rw [hw, Nat.div_add_mod' ci src.width]
          exact Nat.mod_eq_of_lt (Nat.lt_trans hlt hsz)
        have hcells' : (setAliveIdx g src.width ci).cells =
            src.cells.take (ci + 1) ++
              List.replicate (src.width * src.height - (ci + 1)) Cell.DEAD := by
          show (g.cells.set (g.get_index (ci / src.width) (ci % src.width))
            Cell.ALIVE) = _
          rw [hidx, hcells]
          exact take_replicate_set_alive src.cells ci _ hlt hlen hcell
        have := ih (j + 1) i (ci + 1) (setAliveIdx g src.width ci)
          (by omega) (by omega) (by omega) hw hh hcells'
        rw [hstep, hg']
        refine ⟨?_, this.2.1, this.2.2.1, ?_⟩
        · rw [this.1]
          omega
        · rw [this.2.2.2]
          rw [show ci + 1 + min rem (src.width * src.height - (ci + 1)) =
            ci + min (rem + 1) (src.width * src.height - ci) from by omega]
      · have hdead : src.cells.getD ci Cell.DEAD = Cell.DEAD := by
          rcases hv : src.cells.getD ci Cell.DEAD with _ | _
          · rfl
          · exact absurd hv hcell
        have hbit : (byteVal src i).testBit j = false := by
          rcases hb : (byteVal src i).testBit j with _ | _
          · rfl
          · have h1 := hread.mp hb
            rw [halive, if_neg hcell] at h1
            omega
        have hg' : (if (bitsOfByte (byteVal src i)).getD (7 - j) false then
            setAliveIdx g src.width ci else g) = g := by
          rw [hbitle, hbit]
          simp
        have hlen : src.width * src.height = src.cells.length := hwf.symm
        have hcells' : g.cells = src.cells.take (ci + 1) ++
            List.replicate (src.width * src.height - (ci + 1)) Cell.DEAD := by
          rw [hcells]
          exact take_replicate_step_dead src.cells ci _ hlt hlen hdead
        have := ih (j + 1) i (ci + 1) g (by omega) (by omega) (by omega) hw hh hcells'
        rw [hstep, hg']
        refine ⟨?_, this.2.1, this.2.2.1, ?_⟩
        · rw [this.1]
          omega
        · rw [this.2.2.2]
          rw [show ci + 1 + min rem (src.width * src.height - (ci + 1)) =
            ci + min (rem + 1) (src.width * src.height - ci) from by omega]
    · have hstep : loadByteGo (bitsOfByte (byteVal src i)) src.width
          (src.width * src.height) (rem + 1) j g ci = (g, ci) := by
        simp only [loadByteGo, if_neg hlt]
      rw [hstep]
      have hz : min (rem + 1) (src.width * src.height - ci) = 0 := by omega
      rw [hz]
      exact ⟨by omega, hw, hh, by rw [Nat.add_zero]; exact hcells⟩

theorem bytesBits_drop_take (i : Nat) : ∀ l : List Nat, i < l.length →
    ((bytesBits l).drop (8 * i)).take 8 = bitsOfByte (l.getD i 0) := by
  induction i with
  | zero =>
    intro l hl
    rcases l with _ | ⟨b, t⟩
    · simp at hl
    · show ((bitsOfByte b ++ bytesBits t).drop 0).take 8 = bitsOfByte b
      rfl
  | succ i ih =>
    intro l hl
    rcases l with _ | ⟨b, t⟩
    · simp at hl
    · show ((bitsOfByte b ++ bytesBits t).drop (8 * (i + 1))).take 8 =
        bitsOfByte (t.getD i 0)
      have hdrop : (bitsOfByte b ++ bytesBits t).drop (8 * (i + 1)) =
          (bytesBits t).drop (8 * i) := by
        rw [show 8 * (i + 1) = 8 * i + 8 from by ring]
        rfl
      rw [hdrop]
      exact ih t (by simpa using hl)

theorem loadLoop_restores (src : Grid) (hwf : src.WF)
    (hsz : src.width * src.height < U32) :
    ∀ fuel i ci g,
      ci = 8 * i →
      ci ≤ src.width * src.height →
      src.width * src.height - ci < fuel →
      g.width = src.width → g.height = src.height →
      g.cells = src.cells.take ci ++
        List.replicate (src.width * src.height - ci) Cell.DEAD →
      loadLoop (bytesBits ((List.range (numBytes src)).map (byteVal src))) src.width
          (src.width * src.height) fuel g i ci =
        some ⟨src.width, src.height, src.cells⟩ := by
  intro fuel
  induction fuel with
  | zero =>
    intro i ci g hci hle hfuel hw hh hcells
    omega
  | succ fuel ih =>
    intro i ci g hci hle hfuel hw hh hcells
    by_cases hlt : ci < src.width * src.height
    · have hblen : (bytesBits ((List.range (numBytes src)).map (byteVal src))).length =
          8 * numBytes src := by
        rw [bytesBits_length, List.length_map, List.length_range]
      have htc : src.get_total_cells = src.width * src.height :=
        get_total_cells_small src hsz
      have hguard : ¬((i + 1) * 8 >
          (bytesBits ((List.range (numBytes src)).map (byteVal src))).length) := by
        rw [hblen]
        unfold numBytes
        rw [htc]
        omega
      have hmaplen : i < ((List.range (numBytes src)).map (byteVal src)).length := by
        rw [List.length_map, List.length_range]
        unfold numBytes
        rw [htc]
        omega
      have hbyte : ((bytesBits ((List.range (numBytes src)).map (byteVal src))).drop
          (8 * i)).take 8 = bitsOfByte (byteVal src i) := by
        rw [bytesBits_drop_take i _ hmaplen]
        congr 1
        rw [List.getD_eq_getElem?_getD, List.getElem?_eq_getElem hmaplen]
        rw [List.getElem_map]
        rw [List.getElem_range]
        rfl
      have hinv := loadByteGo_invariant src hwf hsz 8 0 i ci g (by omega) (by omega)
        (by omega) hw hh hcells
      have hstep : loadLoop (bytesBits ((List.range (numBytes src)).map (byteVal src)))
          src.width (src.width * src.height) (fuel + 1) g i ci =
          loadLoop (bytesBits ((List.range (numBytes src)).map (byteVal src)))
            src.width (src.width * src.height) fuel
            (loadByteGo (((bytesBits ((List.range (numBytes src)).map
              (byteVal src))).drop (8 * i)).take 8) src.width
              (src.width * src.height) 8 0 g ci).1 (i + 1)
            (loadByteGo (((bytesBits ((List.range (numBytes src)).map
              (byteVal src))).drop (8 * i)).take 8) src.width
              (src.width * src.height) 8 0 g ci).2 := by
        simp only [loadLoop, if_pos hlt, if_neg hguard]
      rw [hstep, hbyte]
      by_cases h8 : 8 ≤ src.width * src.height - ci
      · have hci2 : (loadByteGo (bitsOfByte (byteVal src i)) src.width
            (src.width * src.height) 8 0 g ci).2 = 8 * (i + 1) := by
          rw [hinv.1]
          omega
        have hcells2 : (loadByteGo (bitsOfByte (byteVal src i)) src.width
            (src.width * src.height) 8 0 g ci).1.cells =
            src.cells.take (8 * (i + 1)) ++
              List.replicate (src.width * src.height - 8 * (i + 1)) Cell.DEAD := by
          rw [hinv.2.2.2]
          rw [show ci + min 8 (src.width * src.height - ci) = 8 * (i + 1) from by omega]
        rw [hci2]
        exact ih (i + 1) (8 * (i + 1)) _ rfl (by omega) (by omega)
          hinv.2.1 hinv.2.2.1 hcells2
      · -- the final, partially filled byte: the loop ends with cellIndex = total
        have hci2 : (loadByteGo (bitsOfByte (byteVal src i)) src.width
            (src.width * src.height) 8 0 g ci).2 = src.width * src.height := by
          rw [hinv.1]
          omega
        have hcells2 : (loadByteGo (bitsOfByte (byteVal src i)) src.width
            (src.width * src.height) 8 0 g ci).1.cells = src.cells := by
          rw [hinv.2.2.2]
          rw [show ci + min 8 (src.width * src.height - ci) =
            src.width * src.height from by omega]
          rw [Nat.sub_self]
          rw [show src.width * src.height = src.cells.length from hwf.symm]
          rw [List.take_length]
          simp
        rcases fuel with _ | fuel
        · omega
        · have hfinal : loadLoop (bytesBits ((List.range (numBytes src)).map
              (byteVal src))) src.width (src.width * src.height) (fuel + 1)
              (loadByteGo (bitsOfByte (byteVal src i)) src.width
                (src.width * src.height) 8 0 g ci).1 (i + 1)
              (loadByteGo (bitsOfByte (byteVal src i)) src.width
                (src.width * src.height) 8 0 g ci).2 =
              some (loadByteGo (bitsOfByte (byteVal src i)) src.width
                (src.width * src.height) 8 0 g ci).1 := by
            rw [hci2]
            simp [loadLoop]
          rw [hfinal]
          congr 1
          have heta : (loadByteGo (bitsOfByte (byteVal src i)) src.width
              (src.width * src.height) 8 0 g ci).1 =
              ⟨(loadByteGo (bitsOfByte (byteVal src i)) src.width
                (src.width * src.height) 8 0 g ci).1.width,
               (loadByteGo (bitsOfByte (byteVal src i)) src.width
                (src.width * src.height) 8 0 g ci).1.height,
               (loadByteGo (bitsOfByte (byteVal src i)) src.width
                (src.width * src.height) 8 0 g ci).1.cells⟩ := rfl
          rw [heta, hinv.2.1, hinv.2.2.1, hcells2]
    · have hci0 : ci = src.width * src.height := by omega
      have hstep : loadLoop (bytesBits ((List.range (numBytes src)).map (byteVal src)))
          src.width (src.width * src.height) (fuel + 1) g i ci = some g := by
        simp only [loadLoop, if_neg hlt]
      rw [hstep]
      congr 1
      have hcells0 : g.cells = src.cells := by
        rw [hcells, hci0, Nat.sub_self]
        rw [show src.width * src.height = src.cells.length from hwf.symm]
        rw [List.take_length]
        simp
      have heta : g = ⟨g.width, g.height, g.cells⟩ := rfl
      rw [heta, hw, hh, hcells0]

/-! ## C10: the binary round trip on square grids -/

/-- C10: for every well-formed square grid whose cell count width * height
stays below 2^32 (so that get_index and get_total_cells, computed in unsigned
int, do not wrap), loading the bytes written by save_binary returns the grid
itself: the writer's height bug is invisible when width = height, and writer
and reader agree on the little-endian header and the LSB-first in-byte bit
order. -/
theorem binary_roundtrip_square_c10 (g : Grid) (hwf : g.WF)
    (hsq : g.width = g.height) (hlt : g.width < U32)
    (hsz : g.width * g.height < U32) :
    load_binary (save_binary g) = some g := by
  unfold load_binary save_binary
  have hsB : bytesBits (le32 g.width ++ le32 g.width ++
      (List.range (numBytes g)).map (byteVal g)) =
      bytesBits (le32 g.width) ++ (bytesBits (le32 g.width) ++
        bytesBits ((List.range (numBytes g)).map (byteVal g))) := by
    rw [bytesBits_append, bytesBits_append, List.append_assoc]
  have h32 : (bytesBits (le32 g.width)).length = 32 := by
    rw [bytesBits_length]
    rfl
  rw [hsB]
  have hlen : ¬((bytesBits (le32 g.width) ++ (bytesBits (le32 g.width) ++
      bytesBits ((List.range (numBytes g)).map (byteVal g)))).length < 64) := by
    simp only [List.length_append, h32]
    omega
  rw [if_neg hlen]
  have htake : (bytesBits (le32 g.width) ++ (bytesBits (le32 g.width) ++
      bytesBits ((List.range (numBytes g)).map (byteVal g)))).take 32 =
      bytesBits (le32 g.width) := List.take_left' h32
  have hdrop32 : (bytesBits (le32 g.width) ++ (bytesBits (le32 g.width) ++
      bytesBits ((List.range (numBytes g)).map (byteVal g)))).drop 32 =
      bytesBits (le32 g.width) ++
        bytesBits ((List.range (numBytes g)).map (byteVal g)) := List.drop_left' h32
  have hdrop64 : (bytesBits (le32 g.width) ++ (bytesBits (le32 g.width) ++
      bytesBits ((List.range (numBytes g)).map (byteVal g)))).drop 64 =
      bytesBits ((List.range (numBytes g)).map (byteVal g)) := by
    have hdd : (bytesBits (le32 g.width) ++ (bytesBits (le32 g.width) ++
        bytesBits ((List.range (numBytes g)).map (byteVal g)))).drop 64 =
        ((bytesBits (le32 g.width) ++ (bytesBits (le32 g.width) ++
          bytesBits ((List.range (numBytes g)).map (byteVal g)))).drop 32).drop 32 := by
      rw [List.drop_drop]
    rw [hdd, hdrop32, List.drop_left' h32]
  rw [htake, hdrop32, List.take_left' h32, hdrop64, convertToInt_le32 g.width hlt]
  have htc : (Grid.make g.width g.width).get_total_cells = g.width * g.height := by
    show (g.width * g.width) % U32 = g.width * g.height
    rw [show g.width * g.width = g.width * g.height from by rw [hsq]]
    exact Nat.mod_eq_of_lt hsz
  show loadLoop (bytesBits ((List.range (numBytes g)).map (byteVal g))) g.width
    (Grid.make g.width g.width).get_total_cells
    ((Grid.make g.width g.width).get_total_cells + 1)
    (Grid.make g.width g.width) 0 0 = some g
  rw [htc]
  rw [show Grid.make g.width g.width = Grid.make g.width g.height from by rw [hsq]]
  exact loadLoop_restores g hwf hsz (g.width * g.height + 1) 0 0
    (Grid.make g.width g.height)
    rfl (by omega) (by omega) rfl rfl (by simp [Grid.make])

/-- Witness for C10: the round trip evaluates to the identity on a concrete
3x3 grid (the glider pattern of Zoo::glider). -/
theorem binary_roundtrip_square_c10_witness :
    load_binary (save_binary ⟨3, 3, [Cell.DEAD, Cell.ALIVE, Cell.DEAD,
        Cell.DEAD, Cell.DEAD, Cell.ALIVE, Cell.ALIVE, Cell.ALIVE, Cell.ALIVE]⟩) =
      some ⟨3, 3, [Cell.DEAD, Cell.ALIVE, Cell.DEAD,
        Cell.DEAD, Cell.DEAD, Cell.ALIVE, Cell.ALIVE, Cell.ALIVE, Cell.ALIVE]⟩ :=
  binary_roundtrip_square_c10 ⟨3, 3, [Cell.DEAD, Cell.ALIVE, Cell.DEAD,
    Cell.DEAD, Cell.DEAD, Cell.ALIVE, Cell.ALIVE, Cell.ALIVE, Cell.ALIVE]⟩
    rfl rfl (by decide) (by decide)

/-! ## C6: bit order of the packed payload -/

end GOL
